import Mathlib

/-
Shallow embedding of the MissaTech breach-analysis pipeline
(src/analysis/breach_analysis.py, src/models/risk_prediction.py,
src/data/database.py) over exact rational arithmetic.

Modelling conventions:
* an incident is one row of the `breach_incidents` table; numeric columns
  are embedded as rationals (the source stores integers and floats);
* SQL `GROUP BY` over a list of rows is an explicit grouping pass;
  SQLite does not specify the row order of a grouped result, so grouped
  rows are produced in first-encounter order of their keys where an order
  is observable;
* pandas `sort_values(by, ascending=False)` is embedded faithfully to
  `pandas.core.sorting.nargsort`: for a descending sort the values and
  the index are first reversed (`non_nans[::-1]`, `non_nan_idx[::-1]`),
  the reversed values are argsorted ascending, and the resulting indexer
  is reversed again (`indexer[::-1]`); the two reversals cancel inside
  every run of equal keys, so with a stable underlying sort equal keys
  keep their original relative order; on frames of fewer than 16 rows
  numpy's quicksort runs its insertion-sort branch, which is stable, so
  the ascending pass is embedded as a stable insertion sort;
* a float NaN / inf produced by a zero-variance or zero-denominator
  division is embedded as `none`; a finite value as `some`;
* a raised Python exception is embedded as `none` (for `ValueError` from
  an encoder) or as an `Except` error value (for the clustering guard).
-/

namespace MissaTech

/-- Insert `x` into `l` before the first element whose key is not smaller.
This is the insertion step of a stable ascending sort: an element equal in
key to `x` that is already in `l` stays behind `x` only if it occurs after
the insertion point, and `sortAsc` below inserts from the right so earlier
list elements are inserted last. -/
def insertAsc {α : Type} (key : α → ℚ) (x : α) : List α → List α
  | [] => [x]
  | y :: ys => if key x ≤ key y then x :: y :: ys else y :: insertAsc key x ys

/-- Stable ascending insertion sort by a rational key: numpy's argsort on
arrays below the small-sort cutoff. -/
def sortAsc {α : Type} (key : α → ℚ) : List α → List α
  | [] => []
  | x :: xs => insertAsc key x (sortAsc key xs)

/-- pandas `sort_values(by=key, ascending=False)`: `nargsort` reverses
the values and the index, argsorts the reversed values ascending
(stably), and reverses the resulting indexer again, so the output is
sorted non-increasing and equal keys keep their original relative
order. -/
def sortDesc {α : Type} (key : α → ℚ) (l : List α) : List α :=
  (sortAsc key l.reverse).reverse

/-- One row of the `breach_incidents` table, as loaded by
`database.load_csv_to_db` (the ten canonical columns;
`notification_required` is stored as a 0/1 integer). -/
structure Incident where
  system_name : String
  region : String
  attack_type : String
  data_sensitivity_level : ℚ
  records_exposed : ℚ
  estimated_cost_per_record_usd : ℚ
  estimated_total_cost_usd : ℚ
  detection_delay_days : ℚ
  response_time_days : ℚ
  notification_required : ℚ
deriving DecidableEq, Repr

/-- Result row of `cost_analysis_by_dimension`: the selected aggregate
columns of the SQL `GROUP BY {dimension}` query. The key type is generic
so that a single definition covers every groupable column (and tuples of
columns). -/
structure DimensionAggregate (κ : Type) where
  key : κ
  incident_count : Nat
  total_cost : ℚ
  avg_cost : ℚ
  total_records : ℚ
  avg_detection_days : ℚ
  avg_response_days : ℚ
deriving DecidableEq, Repr

/-- Rows of one `GROUP BY` group: the incidents whose dimension value is
`k`. -/
def groupRows {κ : Type} [DecidableEq κ] (dim : Incident → κ)
    (incidents : List Incident) (k : κ) : List Incident :=
  incidents.filter (fun i => decide (dim i = k))

/-- The aggregate row of one group: `COUNT(*)`, `SUM`/`AVG` of the cost,
record and delay columns (SQL `AVG` is the sum divided by the group
count; every produced group is nonempty). -/
def aggRow {κ : Type} [DecidableEq κ] (dim : Incident → κ)
    (incidents : List Incident) (k : κ) : DimensionAggregate κ :=
  let rows := groupRows dim incidents k
  ⟨k, rows.length,
    (rows.map Incident.estimated_total_cost_usd).sum,
    (rows.map Incident.estimated_total_cost_usd).sum / (rows.length : ℚ),
    (rows.map Incident.records_exposed).sum,
    (rows.map Incident.detection_delay_days).sum / (rows.length : ℚ),
    (rows.map Incident.response_time_days).sum / (rows.length : ℚ)⟩

/-- `cost_analysis_by_dimension(dimension)`: group the table by the
dimension, aggregate each group, and order the groups by `total_cost`
descending (`ORDER BY total_cost DESC`; SQLite does not specify the order
of equal keys and no claim depends on it). -/
def cost_analysis_by_dimension {κ : Type} [DecidableEq κ]
    (dim : Incident → κ) (incidents : List Incident) :
    List (DimensionAggregate κ) :=
  sortDesc (fun r => r.total_cost)
    (((incidents.map dim).dedup).map (aggRow dim incidents))

/-- `get_top_costliest_incidents(n)`: `SELECT * ... ORDER BY
estimated_total_cost_usd DESC LIMIT n`. -/
def get_top_costliest_incidents (incidents : List Incident) (n : Nat) :
    List Incident :=
  (sortDesc Incident.estimated_total_cost_usd incidents).take n

/-- The call form with the source's default argument `n=3`. -/
def get_top_costliest_incidents_default (incidents : List Incident) :
    List Incident :=
  get_top_costliest_incidents incidents 3

/-- First-occurrence deduplication: the distinct keys of a list in the
order they are first encountered (the "group encounter order" of the
spec). -/
def firstOccur {κ : Type} [DecidableEq κ] : List κ → List κ
  | [] => []
  | x :: xs => x :: (firstOccur xs).filter (fun y => decide (y ≠ x))

/-- The distinct `(system_name, region)` keys of the `GROUP BY
system_name, region` query of `risk_score_calculation`, in encounter
order. -/
def riskGroupKeys (incidents : List Incident) : List (String × String) :=
  firstOccur (incidents.map (fun i => (i.system_name, i.region)))

/-- One grouped row of the risk query: `COUNT(*)` as
`incident_frequency`, `SUM(estimated_total_cost_usd)`,
`AVG(data_sensitivity_level)`, `AVG(detection_delay_days)`,
`SUM(records_exposed)`. -/
structure RiskAgg where
  system_name : String
  region : String
  incident_frequency : ℚ
  total_cost : ℚ
  avg_sensitivity : ℚ
  avg_detection : ℚ
  total_records : ℚ
deriving DecidableEq, Repr

/-- The grouped risk rows (the dataframe `df` of
`risk_score_calculation` before the normalisation loop). -/
def riskAggs (incidents : List Incident) : List RiskAgg :=
  (riskGroupKeys incidents).map (fun k =>
    let rows := incidents.filter (fun i => decide ((i.system_name, i.region) = k))
    ⟨k.1, k.2, (rows.length : ℚ),
      (rows.map Incident.estimated_total_cost_usd).sum,
      (rows.map Incident.data_sensitivity_level).sum / (rows.length : ℚ),
      (rows.map Incident.detection_delay_days).sum / (rows.length : ℚ),
      (rows.map Incident.records_exposed).sum⟩)

/-- pandas column minimum of a list of rationals (`df[col].min()`;
the value for the empty frame is never observed by the claims). -/
def listMinD : List ℚ → ℚ
  | [] => 0
  | x :: xs => xs.foldl min x

/-- pandas column maximum of a list of rationals (`df[col].max()`). -/
def listMaxD : List ℚ → ℚ
  | [] => 0
  | x :: xs => xs.foldl max x

/-- The normalisation loop body of `risk_score_calculation`:
`col_range = max - min`; if `col_range == 0` the normalised column is the
constant `0.5`, otherwise it is `(value - min) / col_range`. -/
def normalizeFactor (vals : List ℚ) (v : ℚ) : ℚ :=
  if listMaxD vals - listMinD vals = 0 then 1/2
  else (v - listMinD vals) / (listMaxD vals - listMinD vals)

/-- Weight of `incident_frequency_norm` in the composite score. -/
def wFreq : ℚ := 0.2

/-- Weight of `total_cost_norm` in the composite score. -/
def wCost : ℚ := 0.3

/-- Weight of `avg_sensitivity_norm` in the composite score. -/
def wSens : ℚ := 0.2

/-- Weight of `avg_detection_norm` in the composite score. -/
def wDet : ℚ := 0.15

/-- Weight of `total_records_norm` in the composite score. -/
def wRec : ℚ := 0.15

/-- A fully scored risk row: the grouped columns, the five normalised
columns added by the loop, and the composite `risk_score` column. -/
structure RiskScored where
  system_name : String
  region : String
  incident_frequency : ℚ
  total_cost : ℚ
  avg_sensitivity : ℚ
  avg_detection : ℚ
  total_records : ℚ
  incident_frequency_norm : ℚ
  total_cost_norm : ℚ
  avg_sensitivity_norm : ℚ
  avg_detection_norm : ℚ
  total_records_norm : ℚ
  risk_score : ℚ
deriving DecidableEq, Repr

/-- Score one grouped row against the whole frame `aggs` (the min-max
normalisation reads the whole column) and compute
`risk_score = (freq*0.2 + cost*0.3 + sens*0.2 + det*0.15 + rec*0.15) * 100`. -/
def scoreRow (aggs : List RiskAgg) (a : RiskAgg) : RiskScored :=
  let fn := normalizeFactor (aggs.map RiskAgg.incident_frequency) a.incident_frequency
  let cn := normalizeFactor (aggs.map RiskAgg.total_cost) a.total_cost
  let sn := normalizeFactor (aggs.map RiskAgg.avg_sensitivity) a.avg_sensitivity
  let dn := normalizeFactor (aggs.map RiskAgg.avg_detection) a.avg_detection
  let rn := normalizeFactor (aggs.map RiskAgg.total_records) a.total_records
  ⟨a.system_name, a.region, a.incident_frequency, a.total_cost,
    a.avg_sensitivity, a.avg_detection, a.total_records,
    fn, cn, sn, dn, rn,
    (fn * wFreq + cn * wCost + sn * wSens + dn * wDet + rn * wRec) * 100⟩

/-- The scored frame of `risk_score_calculation` before the final
`sort_values` call, rows in group encounter order. -/
def riskScoresUnsorted (incidents : List Incident) : List RiskScored :=
  (riskAggs incidents).map (scoreRow (riskAggs incidents))

/-- `risk_score_calculation()`: the scored frame sorted by `risk_score`
descending via `df.sort_values('risk_score', ascending=False)`. -/
def risk_score_calculation (incidents : List Incident) : List RiskScored :=
  sortDesc RiskScored.risk_score (riskScoresUnsorted incidents)

/-- pandas column mean (`Series.mean`), sum over count. -/
def qMean (xs : List ℚ) : ℚ := xs.sum / (xs.length : ℚ)

/-- Sum of squared deviations from the mean of a column; zero exactly
when the series has zero variance. -/
def sumSqDev (xs : List ℚ) : ℚ :=
  (xs.map (fun x => (x - qMean xs) ^ 2)).sum

/-- Sum of products of paired deviations (the covariance numerator of
`Series.corr`). -/
def covSum (xs ys : List ℚ) : ℚ :=
  ((xs.zip ys).map (fun p => (p.1 - qMean xs) * (p.2 - qMean ys))).sum

/-- `Series.corr` (Pearson): `covSum / (sqrt (sumSqDev xs) * sqrt
(sumSqDev ys))`. When either series has zero variance the float
computation divides by zero and pandas reports NaN, embedded as `none`.
To stay inside ℚ the defined value is embedded as the square of the
coefficient, `covSum² / (sumSqDev xs * sumSqDev ys)` (the sign of the
coefficient is the sign of `covSum`); every claim about the analyzer
concerns only definedness, which this embedding preserves exactly. -/
def pearson (xs ys : List ℚ) : Option ℚ :=
  if sumSqDev xs = 0 ∨ sumSqDev ys = 0 then none
  else some (covSum xs ys ^ 2 / (sumSqDev xs * sumSqDev ys))

/-- The named variable pairs returned by `correlation_analysis`. -/
structure CorrelationReport where
  detection_vs_cost : Option ℚ
  response_vs_cost : Option ℚ
  records_vs_cost : Option ℚ
  sensitivity_vs_cost : Option ℚ
  detection_vs_records : Option ℚ
deriving DecidableEq, Repr

/-- `correlation_analysis()`: the five pairwise correlations of the full
incident frame. -/
def correlation_analysis (df : List Incident) : CorrelationReport :=
  ⟨pearson (df.map Incident.detection_delay_days) (df.map Incident.estimated_total_cost_usd),
   pearson (df.map Incident.response_time_days) (df.map Incident.estimated_total_cost_usd),
   pearson (df.map Incident.records_exposed) (df.map Incident.estimated_total_cost_usd),
   pearson (df.map Incident.data_sensitivity_level) (df.map Incident.estimated_total_cost_usd),
   pearson (df.map Incident.detection_delay_days) (df.map Incident.records_exposed)⟩

/-- String order used by `numpy.unique` when it sorts the distinct
category values, via the total order of `compare`. -/
def strLe (a b : String) : Bool := !(compare a b == Ordering.gt)

/-- Insertion step of the ascending string sort. -/
def insertStrAsc (x : String) : List String → List String
  | [] => [x]
  | y :: ys => if strLe x y then x :: y :: ys else y :: insertStrAsc x ys

/-- Ascending string sort. -/
def sortStrAsc : List String → List String
  | [] => []
  | x :: xs => insertStrAsc x (sortStrAsc xs)

/-- `LabelEncoder.fit` on a column: `classes_ = numpy.unique(values)`,
the sorted distinct values. -/
def leFit (vals : List String) : List String := sortStrAsc vals.dedup

/-- `LabelEncoder.transform` of one value: its index in `classes_`;
an unseen value raises `ValueError` ("y contains previously unseen
labels"), embedded as `none`. -/
def leTransform (classes : List String) (v : String) : Option Nat :=
  match classes with
  | [] => none
  | c :: cs => if c == v then some 0 else (leTransform cs v).map (· + 1)

/-- One assembled feature vector of `BreachCostPredictor.prepare_features`:
the three encoded categorical codes followed by the four numeric columns. -/
structure FeatureRow where
  system_code : Nat
  region_code : Nat
  attack_code : Nat
  data_sensitivity_level : ℚ
  records_exposed : ℚ
  detection_delay_days : ℚ
  response_time_days : ℚ
deriving DecidableEq, Repr

/-- Collect a list of optional values; `none` (a raised encoder error)
anywhere aborts the whole call. -/
def allSome {β : Type} : List (Option β) → Option (List β)
  | [] => some []
  | o :: os =>
    match o, allSome os with
    | some b, some bs => some (b :: bs)
    | _, _ => none

/-- The mutable `self.label_encoders` dictionary of
`BreachCostPredictor`: one optional fitted class table per categorical
column (`none` = the column has not been seen, so the next
`prepare_features` call fits it). -/
structure Encoders where
  system_name : Option (List String)
  region : Option (List String)
  attack_type : Option (List String)
deriving DecidableEq, Repr

/-- The per-column branch of `prepare_features`: if the column has no
encoder yet, fit one on this column and transform with it
(`fit_transform`); otherwise transform with the stored table
(`transform`, which raises on an unseen value). Returns the codes and
the table stored after the call. -/
def fitOrTransform (enc : Option (List String)) (vals : List String) :
    Option (List Nat) × List String :=
  match enc with
  | none => let cl := leFit vals; (allSome (vals.map (leTransform cl)), cl)
  | some cl => (allSome (vals.map (leTransform cl)), cl)

/-- The fresh predictor state `self.label_encoders = {}`. -/
def emptyEncoders : Encoders := ⟨none, none, none⟩

/-- `BreachCostPredictor.prepare_features(df)`: encode the three
categorical columns and assemble the seven feature columns. Returns the
feature rows (`none` if a transform raised) together with the encoder
state after the call. -/
def prepare_features (enc : Encoders) (df : List Incident) :
    Option (List FeatureRow) × Encoders :=
  let s := fitOrTransform enc.system_name (df.map Incident.system_name)
  let r := fitOrTransform enc.region (df.map Incident.region)
  let a := fitOrTransform enc.attack_type (df.map Incident.attack_type)
  let rows :=
    match s.1, r.1, a.1 with
    | some sc, some rc, some ac =>
      some ((((sc.zip rc).zip ac).zip df).map (fun q =>
        ⟨q.1.1.1, q.1.1.2, q.1.2, q.2.data_sensitivity_level,
          q.2.records_exposed, q.2.detection_delay_days,
          q.2.response_time_days⟩))
    | _, _, _ => none
  (rows, ⟨some s.2, some r.2, some a.2⟩)

/-- The encoder state after `BreachCostPredictor.train(df)`:
`train` calls `prepare_features(df)` on the full frame `df` first and
only then splits it with `train_test_split`, so the encoders are fitted
before any partitioning happens. The subsequent split, scaling, forest
fit and metric computation never touch `self.label_encoders`. -/
def trainedEncoders (df : List Incident) : Encoders :=
  (prepare_features emptyEncoders df).2

/-- The `system_name` column of a frame. -/
def sysCol (l : List Incident) : List String :=
  l.map Incident.system_name

/-- Failure raised by the cluster pipeline. -/
inductive ClusterFailure where
  | degenerateClustering
deriving DecidableEq, Repr

/-- The clustering feature matrix `X = df[features]` of
`RiskClusterAnalyzer.analyze`. -/
def featVec (i : Incident) : List ℚ :=
  [i.data_sensitivity_level, i.records_exposed, i.estimated_total_cost_usd,
   i.detection_delay_days, i.response_time_days]

/-- `RiskClusterAnalyzer.analyze(df)` with `n_clusters` requested:
`KMeans.fit` validates `n_samples >= n_clusters` and raises `ValueError`
("n_samples should be >= n_clusters") when the frame has fewer rows than
requested clusters, embedded as the error case. Otherwise the pipeline
proceeds on the feature matrix; the scaling, Lloyd iteration, profiling
and silhouette computation operate on the returned matrix and raise no
further error relevant to the claims (`silhouette_score` needs at least
two distinct labels, which holds whenever the matrix has at least two
distinct rows and at least two clusters are requested). -/
def RiskClusterAnalyzer.analyze (df : List Incident) (n_clusters : Nat) :
    Except ClusterFailure (List (List ℚ)) :=
  let X := df.map featVec
  if X.length < n_clusters then .error .degenerateClustering
  else .ok X

/-- Number of distinct clustering points (distinct feature rows) of a
frame: the "distinct incidents" of the spec's `DegenerateClustering`
description ("cluster count exceeds distinct points"). -/
def distinctPointCount (df : List Incident) : Nat :=
  ((df.map featVec).dedup).length

/-- The fitted state of `DetectionImpactModel`: the three
`LinearRegression` coefficients over `detection_delay_days`,
`response_time_days`, `records_exposed`, and the intercept. `fit` stores
whatever least-squares solution matches its training frame; the claims
quantify over every fitted state. -/
structure LinearModelState where
  coef_detection : ℚ
  coef_response : ℚ
  coef_records : ℚ
  intercept : ℚ
deriving DecidableEq, Repr

/-- `self.model.predict` on one feature row. -/
def LinearModelState.predictOne (m : LinearModelState) (d r rec : ℚ) : ℚ :=
  m.coef_detection * d + m.coef_response * r + m.coef_records * rec + m.intercept

/-- Sum of squared residuals of a model on a frame (the objective
`LinearRegression.fit` minimises); used to exhibit concrete fitted
states. -/
def ssr (m : LinearModelState) (df : List Incident) : ℚ :=
  (df.map (fun i =>
    (i.estimated_total_cost_usd -
      m.predictOne i.detection_delay_days i.response_time_days
        i.records_exposed) ^ 2)).sum

/-- The dictionary returned by `DetectionImpactModel.estimate_savings`. -/
structure SavingsReport where
  current_total_cost : ℚ
  improved_total_cost : ℚ
  estimated_savings : ℚ
  savings_percentage : ℚ
deriving DecidableEq, Repr

/-- `DetectionImpactModel.estimate_savings(df, detection_improvement,
response_improvement)`: reduce each incident's delays clipped at zero
(`np.maximum(0, ...)`), predict each improved cost, clip each prediction
at zero, sum, and report the savings against the actual current total. -/
def estimate_savings (m : LinearModelState) (df : List Incident)
    (detection_improvement response_improvement : ℚ) : SavingsReport :=
  let current := (df.map Incident.estimated_total_cost_usd).sum
  let improvedCosts := df.map (fun i =>
    m.predictOne (max 0 (i.detection_delay_days - detection_improvement))
      (max 0 (i.response_time_days - response_improvement))
      i.records_exposed)
  let improvedTotal := (improvedCosts.map (fun c => max 0 c)).sum
  ⟨current, improvedTotal, current - improvedTotal,
    (current - improvedTotal) / current * 100⟩

/-- numpy scalar division: dividing by zero emits a runtime warning and
yields `inf`/`nan` (an undefined, non-finite result) instead of raising;
embedded as `none`. A finite quotient is `some`. -/
def npDiv (a b : ℚ) : Option ℚ :=
  if b = 0 then none else some (a / b)

/-- The dictionary returned by `cost_time_regression`. -/
structure CostTimeReport where
  cost_per_detection_day : Option ℚ
  cost_per_response_day : Option ℚ
  estimated_savings_1day_faster_detection : Option ℚ
  estimated_savings_1day_faster_response : Option ℚ
deriving DecidableEq, Repr

/-- `cost_time_regression()`: per-day cost rates over the summed delay
columns, and the scaled savings estimates. The source contains no
guard on either denominator: a zero column sum propagates numpy's
`inf`/`nan` (`none`) into every downstream field. -/
def cost_time_regression (df : List Incident) : CostTimeReport :=
  let totalCost := (df.map Incident.estimated_total_cost_usd).sum
  let cpd := npDiv totalCost (df.map Incident.detection_delay_days).sum
  let cpr := npDiv totalCost (df.map Incident.response_time_days).sum
  let n : ℚ := (df.length : ℚ)
  ⟨cpd, cpr,
    cpd.map (fun x => x * n * 0.1),
    cpr.map (fun x => x * n * 0.05)⟩

/-- Concrete incident: helper constructor fixing the textual columns. -/
def mkInc (s r a : String) (sens rec cpr cost det resp notif : ℚ) : Incident :=
  ⟨s, r, a, sens, rec, cpr, cost, det, resp, notif⟩

/-- One-incident frame used to instantiate the risk-score theorems: a
single `(system, region)` group, so every factor has zero range. -/
def oneIncidentFrame : List Incident :=
  [mkInc "Billing" "NA" "Phishing" 3 10 5 100 4 2 1]

/-- Two incidents in different systems with identical numeric columns:
two groups whose factor columns all have zero range, hence equal
`risk_score`. -/
def tiedFrame : List Incident :=
  [mkInc "Billing" "NA" "Phishing" 3 10 5 100 4 2 1,
   mkInc "HR" "NA" "Phishing" 3 10 5 100 4 2 1]

/-- Frame whose `detection_delay_days` column is the constant 7. -/
def constantDetectionFrame : List Incident :=
  [mkInc "Billing" "NA" "Phishing" 3 10 5 100 7 2 0,
   mkInc "HR" "EU" "Malware" 4 20 5 200 7 3 0]

/-- Five incidents with five distinct `system_name` values: any 80/20
split of this frame holds out one row whose system value is then absent
from the remaining four training rows. -/
def fiveSystemsFrame : List Incident :=
  [mkInc "s0" "R" "T" 3 10 5 100 4 2 1,
   mkInc "s1" "R" "T" 3 10 5 100 4 2 1,
   mkInc "s2" "R" "T" 3 10 5 100 4 2 1,
   mkInc "s3" "R" "T" 3 10 5 100 4 2 1,
   mkInc "s4" "R" "T" 3 10 5 100 4 2 1]

/-- Five incident rows carrying only three distinct clustering feature
vectors (the cost column takes three values, the last two rows repeat
the first two feature-wise while remaining distinct incidents). -/
def duplicatePointsFrame : List Incident :=
  [mkInc "A" "R" "T" 3 10 5 100 4 2 1,
   mkInc "B" "R" "T" 3 10 5 200 4 2 1,
   mkInc "C" "R" "T" 3 10 5 300 4 2 1,
   mkInc "D" "R" "T" 3 10 5 100 4 2 1,
   mkInc "E" "R" "T" 3 10 5 200 4 2 1]

/-- A fitted impact model predicting the constant 1000: all feature
coefficients zero, intercept 1000. -/
def constModel : LinearModelState := ⟨0, 0, 0, 1000⟩

/-- A training frame on which `constModel` is an exact least-squares
fit: every feature is zero and every cost is 1000 (residuals vanish). -/
def constModelFitFrame : List Incident :=
  [mkInc "A" "R" "T" 3 0 0 1000 0 0 0,
   mkInc "B" "R" "T" 3 0 0 1000 0 0 0]

/-- A one-incident frame with actual total cost 1, far below what
`constModel` predicts. -/
def cheapFrame : List Incident :=
  [mkInc "A" "R" "T" 3 0 0 1 0 0 0]

/-- Frame whose `detection_delay_days` column sums to zero. -/
def zeroDetectionFrame : List Incident :=
  [mkInc "Billing" "NA" "Phishing" 3 10 5 100 0 1 1,
   mkInc "HR" "EU" "Malware" 4 20 5 200 0 2 0]

/-- Small frame with pairwise distinct costs, used to instantiate the
aggregation and top-N theorems. -/
def threeCostFrame : List Incident :=
  [mkInc "Billing" "NA" "Phishing" 3 10 5 100 4 2 1,
   mkInc "HR" "EU" "Malware" 4 20 5 300 1 1 0,
   mkInc "Billing" "EU" "Phishing" 2 5 5 200 2 2 1]

/-- The scored "Billing" row of `oneIncidentFrame` and of `tiedFrame`:
with every factor column of zero range, all five normalised values are
`0.5` and the composite score is `50`. -/
def scoredBillingRow : RiskScored :=
  ⟨"Billing", "NA", 1, 100, 3, 4, 10, 1/2, 1/2, 1/2, 1/2, 1/2, 50⟩

/-- The scored "HR" row of `tiedFrame` (same numerics, tied score). -/
def scoredHRRow : RiskScored :=
  ⟨"HR", "NA", 1, 100, 3, 4, 10, 1/2, 1/2, 1/2, 1/2, 1/2, 50⟩

/-- Inserting an element permutes consing it in front. -/
theorem perm_insertAsc {α : Type} (key : α → ℚ) (x : α) (l : List α) :
    List.Perm (insertAsc key x l) (x :: l) := by
  induction l with
  | nil => exact List.Perm.refl _
  | cons y ys ih =>
    simp only [insertAsc]
    by_cases h : key x ≤ key y
    · rw [if_pos h]
    · rw [if_neg h]
      exact (ih.cons y).trans (List.Perm.swap x y ys)

/-- The ascending sort is a permutation of its input. -/
theorem perm_sortAsc {α : Type} (key : α → ℚ) (l : List α) :
    List.Perm (sortAsc key l) l := by
  induction l with
  | nil => exact List.Perm.refl _
  | cons x xs ih =>
    simp only [sortAsc]
    exact (perm_insertAsc key x _).trans (ih.cons x)

/-- The descending sort is a permutation of its input. -/
theorem perm_sortDesc {α : Type} (key : α → ℚ) (l : List α) :
    List.Perm (sortDesc key l) l := by
  unfold sortDesc
  exact ((List.reverse_perm _).trans (perm_sortAsc key l.reverse)).trans
    (List.reverse_perm l)

/-- Insertion preserves ascending sortedness. -/
theorem pairwise_insertAsc {α : Type} (key : α → ℚ) (x : α) {l : List α}
    (h : l.Pairwise (fun a b => key a ≤ key b)) :
    (insertAsc key x l).Pairwise (fun a b => key a ≤ key b) := by
  induction l with
  | nil => simp [insertAsc]
  | cons y ys ih =>
    rcases List.pairwise_cons.mp h with ⟨h1, h2⟩
    simp only [insertAsc]
    by_cases hxy : key x ≤ key y
    · rw [if_pos hxy]
      refine List.pairwise_cons.mpr ⟨?_, h⟩
      intro b hb
      rcases List.mem_cons.mp hb with rfl | hb
      · exact hxy
      · exact hxy.trans (h1 b hb)
    · rw [if_neg hxy]
      refine List.pairwise_cons.mpr ⟨?_, ih h2⟩
      intro b hb
      rcases List.mem_cons.mp ((perm_insertAsc key x ys).mem_iff.mp hb) with rfl | hb
      · exact le_of_not_le hxy
      · exact h1 b hb

/-- The ascending sort output is sorted. -/
theorem pairwise_sortAsc {α : Type} (key : α → ℚ) (l : List α) :
    (sortAsc key l).Pairwise (fun a b => key a ≤ key b) := by
  induction l with
  | nil => simp [sortAsc]
  | cons x xs ih =>
    simp only [sortAsc]
    exact pairwise_insertAsc key x ih

/-- The descending sort output is sorted non-increasing. -/
theorem pairwise_sortDesc {α : Type} (key : α → ℚ) (l : List α) :
    (sortDesc key l).Pairwise (fun a b => key b ≤ key a) := by
  unfold sortDesc
  exact List.pairwise_reverse.mpr (pairwise_sortAsc key l.reverse)

/-- A min fold is bounded by its accumulator. -/
theorem foldl_min_le_init (xs : List ℚ) (a : ℚ) : xs.foldl min a ≤ a := by
  induction xs generalizing a with
  | nil => exact le_refl a
  | cons x xs ih => exact (ih (min a x)).trans (min_le_left a x)

/-- A min fold is bounded by every folded element. -/
theorem foldl_min_le_mem (xs : List ℚ) (a v : ℚ) (h : v ∈ xs) :
    xs.foldl min a ≤ v := by
  induction xs generalizing a with
  | nil => cases h
  | cons x xs ih =>
    rcases List.mem_cons.mp h with rfl | h
    · exact (foldl_min_le_init xs (min a v)).trans (min_le_right a v)
    · exact ih (min a x) h

/-- A max fold dominates its accumulator. -/
theorem le_foldl_max_init (xs : List ℚ) (a : ℚ) : a ≤ xs.foldl max a := by
  induction xs generalizing a with
  | nil => exact le_refl a
  | cons x xs ih => exact (le_max_left a x).trans (ih (max a x))

/-- A max fold dominates every folded element. -/
theorem le_foldl_max_mem (xs : List ℚ) (a v : ℚ) (h : v ∈ xs) :
    v ≤ xs.foldl max a := by
  induction xs generalizing a with
  | nil => cases h
  | cons x xs ih =>
    rcases List.mem_cons.mp h with rfl | h
    · exact (max_le_iff.mp (le_refl (max a v))).2.trans (le_foldl_max_init xs (max a v))
    · exact ih (max a x) h

/-- The column minimum is below every column value. -/
theorem listMinD_le_of_mem {l : List ℚ} {v : ℚ} (h : v ∈ l) :
    listMinD l ≤ v := by
  cases l with
  | nil => cases h
  | cons x xs =>
    rcases List.mem_cons.mp h with rfl | h
    · exact foldl_min_le_init xs v
    · exact foldl_min_le_mem xs x v h

/-- The column maximum dominates every column value. -/
theorem le_listMaxD_of_mem {l : List ℚ} {v : ℚ} (h : v ∈ l) :
    v ≤ listMaxD l := by
  cases l with
  | nil => cases h
  | cons x xs =>
    rcases List.mem_cons.mp h with rfl | h
    · exact le_foldl_max_init xs v
    · exact le_foldl_max_mem xs x v h

/-- A normalised column value lies in `[0, 1]` whenever the value being
normalised occurs in the column. -/
theorem normalizeFactor_mem_bounds {vals : List ℚ} {v : ℚ} (h : v ∈ vals) :
    0 ≤ normalizeFactor vals v ∧ normalizeFactor vals v ≤ 1 := by
  unfold normalizeFactor
  by_cases hr : listMaxD vals - listMinD vals = 0
  · rw [if_pos hr]; norm_num
  · rw [if_neg hr]
    have h1 : listMinD vals ≤ v := listMinD_le_of_mem h
    have h2 : v ≤ listMaxD vals := le_listMaxD_of_mem h
    have h3 : 0 < listMaxD vals - listMinD vals :=
      lt_of_le_of_ne (by linarith) (Ne.symm hr)
    constructor
    · exact div_nonneg (by linarith) (le_of_lt h3)
    · rw [div_le_one h3]; linarith

/-- The zero-range edge case: when the column maximum equals the column
minimum every normalised value is exactly `0.5`. -/
theorem normalizeFactor_zero_range {vals : List ℚ} (v : ℚ)
    (h : listMaxD vals = listMinD vals) : normalizeFactor vals v = 1/2 := by
  unfold normalizeFactor
  rw [if_pos (by rw [h]; ring)]

/-- Every row of the sorted risk frame is the scored image of a grouped
row. -/
theorem mem_risk_score_calculation {incidents : List Incident}
    {g : RiskScored} (hg : g ∈ risk_score_calculation incidents) :
    ∃ a ∈ riskAggs incidents, g = scoreRow (riskAggs incidents) a := by
  have h1 : g ∈ riskScoresUnsorted incidents :=
    (perm_sortDesc RiskScored.risk_score (riskScoresUnsorted incidents)).mem_iff.mp hg
  rcases List.mem_map.mp h1 with ⟨a, ha, rfl⟩
  exact ⟨a, ha, rfl⟩

/-- Evaluation: the grouped risk rows of the one-incident frame. -/
theorem riskAggs_oneIncidentFrame :
    riskAggs oneIncidentFrame = [⟨"Billing", "NA", 1, 100, 3, 4, 10⟩] := by
  simp [riskAggs, riskGroupKeys, firstOccur, oneIncidentFrame, mkInc]

/-- Evaluation: the scored frame of the one-incident frame. -/
theorem riskScoresUnsorted_oneIncidentFrame :
    riskScoresUnsorted oneIncidentFrame = [scoredBillingRow] := by
  rw [riskScoresUnsorted, riskAggs_oneIncidentFrame]
  simp [scoreRow, normalizeFactor, listMaxD, listMinD, scoredBillingRow]
  norm_num [wFreq, wCost, wSens, wDet, wRec]

/-- Evaluation: the sorted risk frame of the one-incident frame. -/
theorem risk_score_calculation_oneIncidentFrame :
    risk_score_calculation oneIncidentFrame = [scoredBillingRow] := by
  rw [risk_score_calculation, riskScoresUnsorted_oneIncidentFrame]
  simp [sortDesc, sortAsc, insertAsc]

/-- Evaluation: the grouped risk rows of the tied two-system frame. -/
theorem riskAggs_tiedFrame :
    riskAggs tiedFrame =
      [⟨"Billing", "NA", 1, 100, 3, 4, 10⟩, ⟨"HR", "NA", 1, 100, 3, 4, 10⟩] := by
  simp [riskAggs, riskGroupKeys, firstOccur, tiedFrame, mkInc]

/-- Evaluation: the scored frame of the tied frame, in group encounter
order; both rows score 50. -/
theorem riskScoresUnsorted_tiedFrame :
    riskScoresUnsorted tiedFrame = [scoredBillingRow, scoredHRRow] := by
  rw [riskScoresUnsorted, riskAggs_tiedFrame]
  simp [scoreRow, normalizeFactor, listMaxD, listMinD, scoredBillingRow, scoredHRRow]
  norm_num [wFreq, wCost, wSens, wDet, wRec]

/-- Evaluation: `sort_values(ascending=False)` keeps the tied pair in
its original encounter order. -/
theorem risk_score_calculation_tiedFrame :
    risk_score_calculation tiedFrame = [scoredBillingRow, scoredHRRow] := by
  rw [risk_score_calculation, riskScoresUnsorted_tiedFrame]
  simp [sortDesc, sortAsc, insertAsc, scoredBillingRow, scoredHRRow]

/-- C1: every row of `risk_score_calculation` has
`risk_score = 100 * (0.20 * incident_frequency_norm + 0.30 *
total_cost_norm + 0.20 * avg_sensitivity_norm + 0.15 *
avg_detection_norm + 0.15 * total_records_norm)`; the five weights sum
to exactly 1; and the score lies in `[0, 100]`. -/
theorem risk_score_formula_and_bounds (incidents : List Incident)
    (g : RiskScored) (hg : g ∈ risk_score_calculation incidents) :
    g.risk_score = 100 * (wFreq * g.incident_frequency_norm
      + wCost * g.total_cost_norm + wSens * g.avg_sensitivity_norm
      + wDet * g.avg_detection_norm + wRec * g.total_records_norm)
    ∧ wFreq + wCost + wSens + wDet + wRec = 1
    ∧ 0 ≤ g.risk_score ∧ g.risk_score ≤ 100 := by
  rcases mem_risk_score_calculation hg with ⟨a, ha, rfl⟩
  have h1 := normalizeFactor_mem_bounds (List.mem_map_of_mem RiskAgg.incident_frequency ha)
  have h2 := normalizeFactor_mem_bounds (List.mem_map_of_mem RiskAgg.total_cost ha)
  have h3 := normalizeFactor_mem_bounds (List.mem_map_of_mem RiskAgg.avg_sensitivity ha)
  have h4 := normalizeFactor_mem_bounds (List.mem_map_of_mem RiskAgg.avg_detection ha)
  have h5 := normalizeFactor_mem_bounds (List.mem_map_of_mem RiskAgg.total_records ha)
  refine ⟨?_, by norm_num [wFreq, wCost, wSens, wDet, wRec], ?_, ?_⟩
  · simp only [scoreRow]; ring
  · simp only [scoreRow, wFreq, wCost, wSens, wDet, wRec]
    linarith [h1.1, h1.2, h2.1, h2.2, h3.1, h3.2, h4.1, h4.2, h5.1, h5.2]
  · simp only [scoreRow, wFreq, wCost, wSens, wDet, wRec]
    linarith [h1.1, h1.2, h2.1, h2.2, h3.1, h3.2, h4.1, h4.2, h5.1, h5.2]

/-- C1 witness: the scored row of the concrete one-incident frame is a
row of its risk output and its score (50) lies in `[0, 100]`. -/
theorem risk_score_formula_and_bounds_witness :
    scoredBillingRow ∈ risk_score_calculation oneIncidentFrame
    ∧ 0 ≤ scoredBillingRow.risk_score ∧ scoredBillingRow.risk_score ≤ 100 := by
  have hm : scoredBillingRow ∈ risk_score_calculation oneIncidentFrame := by
    rw [risk_score_calculation_oneIncidentFrame]
    exact List.mem_singleton.mpr rfl
  exact ⟨hm, (risk_score_formula_and_bounds oneIncidentFrame scoredBillingRow hm).2.2⟩

/-- C2: every normalised factor of every row of the risk output lies in
`[0, 1]`, and whenever a factor column has zero range (its maximum over
all groups equals its minimum) that factor normalises to exactly `0.5`
on every row. -/
theorem risk_norms_unit_interval_and_zero_range (incidents : List Incident)
    (g : RiskScored) (hg : g ∈ risk_score_calculation incidents) :
    (0 ≤ g.incident_frequency_norm ∧ g.incident_frequency_norm ≤ 1)
    ∧ (0 ≤ g.total_cost_norm ∧ g.total_cost_norm ≤ 1)
    ∧ (0 ≤ g.avg_sensitivity_norm ∧ g.avg_sensitivity_norm ≤ 1)
    ∧ (0 ≤ g.avg_detection_norm ∧ g.avg_detection_norm ≤ 1)
    ∧ (0 ≤ g.total_records_norm ∧ g.total_records_norm ≤ 1)
    ∧ (listMaxD ((riskAggs incidents).map RiskAgg.incident_frequency)
        = listMinD ((riskAggs incidents).map RiskAgg.incident_frequency)
        → g.incident_frequency_norm = 1/2)
    ∧ (listMaxD ((riskAggs incidents).map RiskAgg.total_cost)
        = listMinD ((riskAggs incidents).map RiskAgg.total_cost)
        → g.total_cost_norm = 1/2)
    ∧ (listMaxD ((riskAggs incidents).map RiskAgg.avg_sensitivity)
        = listMinD ((riskAggs incidents).map RiskAgg.avg_sensitivity)
        → g.avg_sensitivity_norm = 1/2)
    ∧ (listMaxD ((riskAggs incidents).map RiskAgg.avg_detection)
        = listMinD ((riskAggs incidents).map RiskAgg.avg_detection)
        → g.avg_detection_norm = 1/2)
    ∧ (listMaxD ((riskAggs incidents).map RiskAgg.total_records)
        = listMinD ((riskAggs incidents).map RiskAgg.total_records)
        → g.total_records_norm = 1/2) := by
  rcases mem_risk_score_calculation hg with ⟨a, ha, rfl⟩
  simp only [scoreRow]
  exact ⟨normalizeFactor_mem_bounds (List.mem_map_of_mem RiskAgg.incident_frequency ha),
    normalizeFactor_mem_bounds (List.mem_map_of_mem RiskAgg.total_cost ha),
    normalizeFactor_mem_bounds (List.mem_map_of_mem RiskAgg.avg_sensitivity ha),
    normalizeFactor_mem_bounds (List.mem_map_of_mem RiskAgg.avg_detection ha),
    normalizeFactor_mem_bounds (List.mem_map_of_mem RiskAgg.total_records ha),
    fun h => normalizeFactor_zero_range _ h,
    fun h => normalizeFactor_zero_range _ h,
    fun h => normalizeFactor_zero_range _ h,
    fun h => normalizeFactor_zero_range _ h,
    fun h => normalizeFactor_zero_range _ h⟩

/-- C2 witness: on the one-incident frame the detection column has zero
range and its normalised value is exactly `0.5`, and it lies in `[0,1]`. -/
theorem risk_norms_unit_interval_and_zero_range_witness :
    scoredBillingRow.avg_detection_norm = 1/2
    ∧ 0 ≤ scoredBillingRow.avg_detection_norm := by
  have hm : scoredBillingRow ∈ risk_score_calculation oneIncidentFrame := by
    rw [risk_score_calculation_oneIncidentFrame]
    exact List.mem_singleton.mpr rfl
  have h := risk_norms_unit_interval_and_zero_range oneIncidentFrame scoredBillingRow hm
  refine ⟨h.2.2.2.2.2.2.2.2.2 ?_, h.2.2.2.1.1⟩
  rw [riskAggs_oneIncidentFrame]
  simp [listMaxD, listMinD]

/-- The size of a dimension group equals the multiplicity of its key in
the dimension column. -/
theorem groupRows_length {κ : Type} [DecidableEq κ] (dim : Incident → κ)
    (incidents : List Incident) (k : κ) :
    (groupRows dim incidents k).length = (incidents.map dim).count k := by
  induction incidents with
  | nil => rfl
  | cons i l ih =>
    simp only [groupRows, List.filter_cons, List.map_cons, List.count_cons] at *
    by_cases h : dim i = k
    · simp [h, ih]
    · simp [h, ih, Ne.symm h]

/-- Mapping the key over the aggregated rows recovers the key list. -/
theorem map_key_aggRow {κ : Type} [DecidableEq κ] (dim : Incident → κ)
    (incidents : List Incident) (ks : List κ) :
    (ks.map (aggRow dim incidents)).map DimensionAggregate.key = ks := by
  induction ks with
  | nil => rfl
  | cons k ks ih => simp [aggRow, ih]

/-- C4: `cost_analysis_by_dimension` returns exactly one row per
distinct dimension value present in the store (no filtering), ordered
non-increasing by `total_cost`, and the `incident_count` column sums to
the total number of incidents. -/
theorem cost_analysis_partition_sorted_counts {κ : Type} [DecidableEq κ]
    (dim : Incident → κ) (incidents : List Incident) :
    ((cost_analysis_by_dimension dim incidents).map DimensionAggregate.key).Nodup
    ∧ (∀ v : κ,
        v ∈ (cost_analysis_by_dimension dim incidents).map DimensionAggregate.key
        ↔ v ∈ incidents.map dim)
    ∧ (cost_analysis_by_dimension dim incidents).Pairwise
        (fun a b => b.total_cost ≤ a.total_cost)
    ∧ ((cost_analysis_by_dimension dim incidents).map
        DimensionAggregate.incident_count).sum = incidents.length := by
  have hperm : List.Perm (cost_analysis_by_dimension dim incidents)
      (((incidents.map dim).dedup).map (aggRow dim incidents)) :=
    perm_sortDesc _ _
  have hkeys : List.Perm
      ((cost_analysis_by_dimension dim incidents).map DimensionAggregate.key)
      ((incidents.map dim).dedup) := by
    have := hperm.map DimensionAggregate.key
    rwa [map_key_aggRow] at this
  refine ⟨?_, ?_, ?_, ?_⟩
  · exact hkeys.nodup_iff.mpr (List.nodup_dedup _)
  · intro v
    exact hkeys.mem_iff.trans List.mem_dedup
  · exact pairwise_sortDesc _ _
  · have hsum : ((cost_analysis_by_dimension dim incidents).map
        DimensionAggregate.incident_count).sum
        = ((((incidents.map dim).dedup).map (aggRow dim incidents)).map
            DimensionAggregate.incident_count).sum :=
      (hperm.map DimensionAggregate.incident_count).sum_eq
    rw [hsum, List.map_map]
    have hcongr : ((incidents.map dim).dedup).map
          (DimensionAggregate.incident_count ∘ aggRow dim incidents)
        = ((incidents.map dim).dedup).map (fun k => (incidents.map dim).count k) := by
      apply List.map_congr_left
      intro k _
      exact groupRows_length dim incidents k
    rw [hcongr, List.sum_map_count_dedup_eq_length, List.length_map]

/-- C4 witness: on a concrete three-incident frame grouped by
`system_name` the two group counts sum to 3. -/
theorem cost_analysis_partition_sorted_counts_witness :
    ((cost_analysis_by_dimension Incident.system_name threeCostFrame).map
      DimensionAggregate.incident_count).sum = threeCostFrame.length :=
  (cost_analysis_partition_sorted_counts Incident.system_name threeCostFrame).2.2.2

/-- C10: `get_top_costliest_incidents(n)` returns at most `n` rows, each
an unmodified record of the store, ordered non-increasing by
`estimated_total_cost_usd`; calling it without `n` is calling it with
the default `n = 3`. -/
theorem top_costliest_take_sorted (incidents : List Incident) (n : Nat) :
    (get_top_costliest_incidents incidents n).length ≤ n
    ∧ (∀ x ∈ get_top_costliest_incidents incidents n, x ∈ incidents)
    ∧ (get_top_costliest_incidents incidents n).Pairwise
        (fun a b => b.estimated_total_cost_usd ≤ a.estimated_total_cost_usd)
    ∧ get_top_costliest_incidents_default incidents
        = get_top_costliest_incidents incidents 3 := by
  refine ⟨?_, ?_, ?_, rfl⟩
  · rw [get_top_costliest_incidents, List.length_take]
    exact min_le_left _ _
  · intro x hx
    exact (perm_sortDesc Incident.estimated_total_cost_usd incidents).mem_iff.mp
      (List.take_subset n _ hx)
  · exact (pairwise_sortDesc Incident.estimated_total_cost_usd incidents).sublist
      (List.take_sublist n _)

/-- C10 witness: the top-2 query on a concrete three-incident frame
returns at most two rows, all of them store records. -/
theorem top_costliest_take_sorted_witness :
    (get_top_costliest_incidents threeCostFrame 2).length ≤ 2
    ∧ get_top_costliest_incidents_default threeCostFrame
        = get_top_costliest_incidents threeCostFrame 3 :=
  ⟨(top_costliest_take_sorted threeCostFrame 2).1,
    (top_costliest_take_sorted threeCostFrame 2).2.2.2⟩

/-- A list of equal elements sums to length times the value. -/
theorem sum_eq_length_mul {xs : List ℚ} {c : ℚ} (h : ∀ x ∈ xs, x = c) :
    xs.sum = (xs.length : ℚ) * c := by
  induction xs with
  | nil => simp
  | cons x l ih =>
    rw [List.sum_cons, h x (List.mem_cons_self x l),
      ih (fun y hy => h y (List.mem_cons_of_mem x hy))]
    push_cast [List.length_cons]
    ring

/-- The mean of a nonempty constant column is the constant. -/
theorem qMean_const {xs : List ℚ} {c : ℚ} (h : ∀ x ∈ xs, x = c)
    (hne : xs ≠ []) : qMean xs = c := by
  unfold qMean
  rw [sum_eq_length_mul h]
  have hl : (xs.length : ℚ) ≠ 0 :=
    Nat.cast_ne_zero.mpr (List.length_pos.mpr hne).ne'
  field_simp

/-- A constant column has zero sum of squared deviations. -/
theorem sumSqDev_const {xs : List ℚ} {c : ℚ} (h : ∀ x ∈ xs, x = c) :
    sumSqDev xs = 0 := by
  rcases eq_or_ne xs [] with rfl | hne
  · simp [sumSqDev]
  · unfold sumSqDev
    apply List.sum_eq_zero
    intro y hy
    rcases List.mem_map.mp hy with ⟨x, hx, rfl⟩
    rw [h x hx, qMean_const h hne]
    ring

/-- `Series.corr` of a constant left series is NaN. -/
theorem pearson_const_left {xs ys : List ℚ} {c : ℚ} (h : ∀ x ∈ xs, x = c) :
    pearson xs ys = none := by
  unfold pearson
  rw [if_pos (Or.inl (sumSqDev_const h))]

/-- `Series.corr` of a constant right series is NaN. -/
theorem pearson_const_right {xs ys : List ℚ} {c : ℚ} (h : ∀ y ∈ ys, y = c) :
    pearson xs ys = none := by
  unfold pearson
  rw [if_pos (Or.inr (sumSqDev_const h))]

/-- A constant incident column maps to a constant series. -/
theorem map_const_of_incident {df : List Incident} {f : Incident → ℚ} {c : ℚ}
    (h : ∀ i ∈ df, f i = c) : ∀ x ∈ df.map f, x = c := by
  intro x hx
  rcases List.mem_map.mp hx with ⟨i, hi, rfl⟩
  exact h i hi

/-- C5: whenever one series of a correlated pair is constant (zero
variance), `correlation_analysis` reports NaN (`none`) for every pair
involving that series — never a fabricated finite coefficient. -/
theorem correlation_zero_variance_nan (df : List Incident) (c : ℚ) :
    ((∀ i ∈ df, i.detection_delay_days = c) →
      (correlation_analysis df).detection_vs_cost = none
      ∧ (correlation_analysis df).detection_vs_records = none)
    ∧ ((∀ i ∈ df, i.response_time_days = c) →
      (correlation_analysis df).response_vs_cost = none)
    ∧ ((∀ i ∈ df, i.records_exposed = c) →
      (correlation_analysis df).records_vs_cost = none
      ∧ (correlation_analysis df).detection_vs_records = none)
    ∧ ((∀ i ∈ df, i.data_sensitivity_level = c) →
      (correlation_analysis df).sensitivity_vs_cost = none)
    ∧ ((∀ i ∈ df, i.estimated_total_cost_usd = c) →
      (correlation_analysis df).detection_vs_cost = none
      ∧ (correlation_analysis df).response_vs_cost = none
      ∧ (correlation_analysis df).records_vs_cost = none
      ∧ (correlation_analysis df).sensitivity_vs_cost = none) := by
  refine ⟨fun h => ⟨?_, ?_⟩, fun h => ?_, fun h => ⟨?_, ?_⟩, fun h => ?_,
    fun h => ⟨?_, ?_, ?_, ?_⟩⟩
  all_goals
    simp only [correlation_analysis]
  · exact pearson_const_left (map_const_of_incident h)
  · exact pearson_const_left (map_const_of_incident h)
  · exact pearson_const_left (map_const_of_incident h)
  · exact pearson_const_left (map_const_of_incident h)
  · exact pearson_const_right (map_const_of_incident h)
  · exact pearson_const_left (map_const_of_incident h)
  · exact pearson_const_right (map_const_of_incident h)
  · exact pearson_const_right (map_const_of_incident h)
  · exact pearson_const_right (map_const_of_incident h)
  · exact pearson_const_right (map_const_of_incident h)

/-- C5 witness: on a concrete frame whose detection column is the
constant 7, both correlations involving detection are NaN. -/
theorem correlation_zero_variance_nan_witness :
    (correlation_analysis constantDetectionFrame).detection_vs_cost = none
    ∧ (correlation_analysis constantDetectionFrame).detection_vs_records = none :=
  (correlation_zero_variance_nan constantDetectionFrame 7).1
    (by
      intro i hi
      simp only [constantDetectionFrame, mkInc, List.mem_cons,
        List.not_mem_nil, or_false] at hi
      rcases hi with rfl | rfl <;> rfl)

/-- Transforming a value absent from a fitted class table fails. -/
theorem leTransform_eq_none {classes : List String} {v : String}
    (hv : ¬ v ∈ classes) : leTransform classes v = none := by
  induction classes with
  | nil => rfl
  | cons c cs ih =>
    have hcv : (c == v) = false := by
      simp only [beq_eq_false_iff_ne, ne_eq]
      intro hcon
      exact hv (hcon ▸ List.mem_cons_self c cs)
    rw [leTransform, hcv]
    simp only [Bool.false_eq_true, if_false]
    rw [ih (fun h => hv (List.mem_cons_of_mem c h))]
    rfl

/-- C6 (amended): `train` builds each categorical encoding table exactly
once, from the distinct values of the **full** dataset passed to it
(`prepare_features` runs before `train_test_split`); a later
`prepare_features` call transforms with the stored tables and leaves
them unchanged; and transforming a value absent from a table fails
(`ValueError`, embedded as `none`) rather than producing a default
code. -/
theorem encoder_table_full_dataset_and_unknown_fails (df : List Incident) :
    trainedEncoders df = ⟨some (leFit (df.map Incident.system_name)),
      some (leFit (df.map Incident.region)),
      some (leFit (df.map Incident.attack_type))⟩
    ∧ (∀ df2 : List Incident,
        (prepare_features (trainedEncoders df) df2).2 = trainedEncoders df)
    ∧ (∀ classes : List String, ∀ v : String,
        ¬ v ∈ classes → leTransform classes v = none) := by
  refine ⟨rfl, fun df2 => rfl, fun classes v hv => leTransform_eq_none hv⟩

/-- C6 (counterexample): on a five-incident frame with five distinct
system names, the table the code builds (from all five values, because
the encoders are fitted on the full frame before the 80/20 split)
differs from the table the claim prescribes (from the four training
rows only), whichever single row the seeded split holds out. -/
theorem encoder_table_not_train_only_counterexample :
    (trainedEncoders fiveSystemsFrame).system_name
        ≠ some (leFit (sysCol (fiveSystemsFrame.eraseIdx 0)))
    ∧ (trainedEncoders fiveSystemsFrame).system_name
        ≠ some (leFit (sysCol (fiveSystemsFrame.eraseIdx 1)))
    ∧ (trainedEncoders fiveSystemsFrame).system_name
        ≠ some (leFit (sysCol (fiveSystemsFrame.eraseIdx 2)))
    ∧ (trainedEncoders fiveSystemsFrame).system_name
        ≠ some (leFit (sysCol (fiveSystemsFrame.eraseIdx 3)))
    ∧ (trainedEncoders fiveSystemsFrame).system_name
        ≠ some (leFit (sysCol (fiveSystemsFrame.eraseIdx 4))) := by
  refine ⟨?_, ?_, ?_, ?_, ?_⟩ <;> decide

/-- C6 witness: an unseen system value is rejected by the table fitted
on the five-system frame. -/
theorem encoder_table_full_dataset_and_unknown_fails_witness :
    leTransform (leFit (sysCol fiveSystemsFrame)) "zz" = none :=
  (encoder_table_full_dataset_and_unknown_fails fiveSystemsFrame).2.2
    (leFit (sysCol fiveSystemsFrame)) "zz" (by decide)

/-- C7 (amended): the cluster pipeline fails with its degenerate-
clustering error exactly when the requested cluster count exceeds the
number of incident **rows** (`KMeans.fit` validates `n_samples >=
n_clusters`), regardless of how many of those rows are distinct
points. -/
theorem cluster_fails_iff_samples_below_k (df : List Incident) (k : Nat) :
    RiskClusterAnalyzer.analyze df k
        = Except.error ClusterFailure.degenerateClustering
      ↔ df.length < k := by
  simp only [RiskClusterAnalyzer.analyze, List.length_map]
  by_cases h : df.length < k
  · simp [h]
  · simp [h]

/-- C7 (counterexample): five incident rows carrying only three distinct
feature points, with four clusters requested: the requested count
exceeds the number of distinct incidents, yet the pipeline does not fail
— sklearn's guard compares against the row count (5), not the distinct
point count (3). -/
theorem cluster_duplicate_points_no_failure_counterexample :
    distinctPointCount duplicatePointsFrame < 4
    ∧ RiskClusterAnalyzer.analyze duplicatePointsFrame 4
        = Except.ok (duplicatePointsFrame.map featVec) := by
  constructor
  · show ((duplicatePointsFrame.map featVec).dedup).length < 4
    norm_num [duplicatePointsFrame, featVec, mkInc, List.dedup_cons_of_mem,
      List.dedup_cons_of_not_mem]
  · simp [RiskClusterAnalyzer.analyze, duplicatePointsFrame]

/-- C7 witness: the spec scenario — 10 clusters requested on 5
incidents — does fail with the degenerate-clustering error. -/
theorem cluster_fails_iff_samples_below_k_witness :
    RiskClusterAnalyzer.analyze fiveSystemsFrame 10
      = Except.error ClusterFailure.degenerateClustering :=
  (cluster_fails_iff_samples_below_k fiveSystemsFrame 10).mpr (by norm_num [fiveSystemsFrame])

/-- C8 (amended): for non-negative improvements the savings simulation
clips each reduced delay at zero and each predicted per-incident cost at
zero before summing, so `improved_total_cost` is non-negative and
`estimated_savings = current_total_cost - improved_total_cost` is at
most `current_total_cost`. (`improved_total_cost` is **not** bounded by
`current_total_cost`: it sums clipped model predictions, which can
exceed the actual current costs.) -/
theorem savings_clipping_bounds (m : LinearModelState) (df : List Incident)
    (di ri : ℚ) (_hdi : 0 ≤ di) (_hri : 0 ≤ ri) :
    (estimate_savings m df di ri).estimated_savings
        = (estimate_savings m df di ri).current_total_cost
          - (estimate_savings m df di ri).improved_total_cost
    ∧ 0 ≤ (estimate_savings m df di ri).improved_total_cost
    ∧ (estimate_savings m df di ri).estimated_savings
        ≤ (estimate_savings m df di ri).current_total_cost := by
  have himp : 0 ≤ (estimate_savings m df di ri).improved_total_cost := by
    simp only [estimate_savings]
    apply List.sum_nonneg
    intro x hx
    rcases List.mem_map.mp hx with ⟨y, hy, rfl⟩
    exact le_max_left 0 y
  refine ⟨rfl, himp, ?_⟩
  simp only [estimate_savings] at himp ⊢
  linarith

/-- C8 witness: the source's own scenario (2-day faster detection,
1-day faster response) on a concrete fitted model and frame reports
savings bounded by the current total. -/
theorem savings_clipping_bounds_witness :
    (estimate_savings constModel cheapFrame 2 1).estimated_savings
      ≤ (estimate_savings constModel cheapFrame 2 1).current_total_cost :=
  (savings_clipping_bounds constModel cheapFrame 2 1 (by norm_num) (by norm_num)).2.2

/-- `constModel` is an exact least-squares fit of its training frame:
its residual is zero there, and no coefficient choice does better. -/
theorem constModel_is_least_squares (m : LinearModelState) :
    ssr constModel constModelFitFrame ≤ ssr m constModelFitFrame := by
  have h0 : ssr constModel constModelFitFrame = 0 := by
    norm_num [ssr, constModel, constModelFitFrame, mkInc, LinearModelState.predictOne]
  rw [h0]
  apply List.sum_nonneg
  intro x hx
  rcases List.mem_map.mp hx with ⟨y, hy, rfl⟩
  positivity

/-- C8 (counterexample): with the fitted model `constModel` (an exact
least-squares fit of `constModelFitFrame`) and the one-incident frame of
actual cost 1, non-negative improvements (1, 1 — the source defaults)
yield `improved_total_cost` = 1000 > 1 = `current_total_cost`: the
claimed inequality fails. -/
theorem savings_can_exceed_current_counterexample :
    (0 : ℚ) ≤ 1
    ∧ (estimate_savings constModel cheapFrame 1 1).current_total_cost
      < (estimate_savings constModel cheapFrame 1 1).improved_total_cost := by
  constructor
  · norm_num
  · norm_num [estimate_savings, constModel, cheapFrame, mkInc,
      LinearModelState.predictOne]

/-- C9: on a frame whose `detection_delay_days` column sums to zero,
`cost_time_regression` performs the division anyway — there is no guard
substituting a defined default — and the undefined (`inf`/`nan`,
embedded `none`) rate propagates into the savings estimate returned to
the caller. -/
theorem cost_time_regression_zero_denominator_undefined :
    (cost_time_regression zeroDetectionFrame).cost_per_detection_day = none
    ∧ (cost_time_regression zeroDetectionFrame).estimated_savings_1day_faster_detection
        = none := by
  norm_num [cost_time_regression, npDiv, zeroDetectionFrame, mkInc]

end MissaTech
